import Mathlib

/-!
Verification of the Wavefront OBJ/MTL parser, the environment state, and the
render-pass sequencing of the derky repository, via a shallow embedding of the
Rust sources into Lean.

Sources embedded:
- src/src/wavefront_obj/parser.rs and mod.rs (the complete OBJ/MTL parser
  state machine; the weavy_crab directory holds near-duplicate historical
  snapshots of the same design, partially unfinished);
- src/derky/src/common/environment.rs (Environment, update_luminance, tick);
- src/derky-gl4/src/application/mod.rs and
  src/derky-d3d11/src/application/mod.rs (draw_geometry);
- src/derky-d3d11/src/main.rs (frame-throttled event loop).

Modelling conventions:
- Rust usize/u32 are Nat with explicit range checks where the source parses
  bounded integers (parse errors on overflow); usize subtraction that would
  underflow (a panic in debug builds, a wrap in release builds) is modelled as
  the distinguished outcome ParseErr.usizeUnderflow, which is in particular
  not an InvalidIndex error and not a successful result.
- f32 values are modelled as rationals: the parser only stores parsed numbers
  and never computes with them in any property verified here, except
  Vec3::normalized, a floating-point magnitude division with no exact
  rational counterpart; it is modelled as keeping the parsed components, and
  no theorem below observes normal components (only list lengths and parse
  success/failure).
- The f32/usize string parsers model the plain decimal forms of the Rust
  std parsers (sign, digits, fraction); exponent/inf/nan forms are not
  modelled and no theorem depends on them.
- HashMap<String, _> is an association list with insert-or-replace; the only
  facts observed are emptiness and key membership, which agree with HashMap.
- Fallible Rust functions returning Result become Except ParseErr; the
  dyn-Error values wrapping foreign errors (IO, numeric format) are collapsed
  into dedicated constructors.
-/

instance {ε α : Type} [DecidableEq ε] [DecidableEq α] : DecidableEq (Except ε α)
  | .ok a, .ok b =>
    if h : a = b then .isTrue (by rw [h]) else .isFalse (by simp [h])
  | .ok _, .error _ => .isFalse (by simp)
  | .error _, .ok _ => .isFalse (by simp)
  | .error e, .error f =>
    if h : e = f then .isTrue (by rw [h]) else .isFalse (by simp [h])

/-- Errors of the OBJ/MTL parser (enum Error in wavefront_obj/mod.rs), plus
the foreign error kinds that flow through the same AnyResult channel and the
modelled-panic outcome for unsigned subtraction underflow. -/
inductive ParseErr : Type where
  /-- NotEnoughData { found, expected } -/
  | notEnoughData (found expected : Nat)
  /-- InvalidFaceVertex -/
  | invalidFaceVertex
  /-- InvalidIndex -/
  | invalidIndex
  /-- PathNotFound -/
  | pathNotFound
  /-- a std numeric parse error propagated through the question-mark operator -/
  | numFormat
  /-- an error returned by the caller-supplied mtllib resolver -/
  | resolveError
  /-- usize subtraction underflow in parse_face: a panic in debug builds, a
  wrapped (huge) index in release builds; in either case not an Err return -/
  | usizeUnderflow
  deriving DecidableEq, Repr

/-- Value of an unsigned decimal digit string. -/
def digitsVal (cs : List Char) : Nat :=
  cs.foldl (fun a c => a * 10 + (c.toNat - 48)) 0

/-- Rust str::parse::<usize> on a 64-bit target: optional plus sign, then a
nonempty digit string whose value fits in 64 bits. -/
def parseUsize (s : String) : Option Nat :=
  let core := fun (cs : List Char) =>
    if cs ≠ [] ∧ cs.all Char.isDigit then
      let v := digitsVal cs
      if v < 2 ^ 64 then some v else none
    else none
  match s.data with
  | '+' :: r => core r
  | r => core r

/-- Rust str::parse::<u32>: optional plus sign, then a nonempty digit string
whose value fits in 32 bits. -/
def parseU32 (s : String) : Option Nat :=
  let core := fun (cs : List Char) =>
    if cs ≠ [] ∧ cs.all Char.isDigit then
      let v := digitsVal cs
      if v < 2 ^ 32 then some v else none
    else none
  match s.data with
  | '+' :: r => core r
  | r => core r

/-- Plain decimal part of Rust str::parse::<f32>: digits with an optional
fraction; at least one digit overall. The exact f32 value is modelled as the
rational it denotes. -/
def parseFloatCore (cs : List Char) : Option ℚ :=
  match cs.span (· ≠ '.') with
  | (intPart, []) =>
    if intPart ≠ [] ∧ intPart.all Char.isDigit then
      some ((digitsVal intPart : ℚ))
    else none
  | (intPart, _dot :: fracPart) =>
    if (intPart ≠ [] ∨ fracPart ≠ []) ∧ intPart.all Char.isDigit ∧
        fracPart.all Char.isDigit ∧ fracPart.all (· ≠ '.') then
      some ((digitsVal intPart : ℚ) + (digitsVal fracPart : ℚ) / (10 ^ fracPart.length))
    else none

/-- Rust str::parse::<f32>, restricted to the sign-and-decimal forms that
occur in OBJ/MTL numeric fields. -/
def parseFloat? (s : String) : Option ℚ :=
  match s.data with
  | '-' :: r => (parseFloatCore r).map (fun q => -q)
  | '+' :: r => parseFloatCore r
  | r => parseFloatCore r

/-- ultraviolet::Vec2 with rational components. -/
structure Vec2 where
  x : ℚ
  y : ℚ
  deriving DecidableEq, Repr

/-- ultraviolet::Vec3 with rational components. -/
structure Vec3 where
  x : ℚ
  y : ℚ
  z : ℚ
  deriving DecidableEq, Repr

/-- ultraviolet::Vec4 with rational components. -/
structure Vec4 where
  x : ℚ
  y : ℚ
  z : ℚ
  w : ℚ
  deriving DecidableEq, Repr

/-- ultraviolet::Mat4: four column vectors. Entry layout is irrelevant to
every property verified here. -/
structure Mat4 where
  c0 : Vec4
  c1 : Vec4
  c2 : Vec4
  c3 : Vec4
  deriving DecidableEq, Repr

/-- Vec3::normalized divides by the Euclidean magnitude, a floating-point
operation with no exact rational counterpart. The model keeps the parsed
components; no theorem observes normal components, only list lengths. -/
def Vec3.normalized (v : Vec3) : Vec3 := v

/-- take_single (parser.rs): consume the first token and parse it. This is
the f32 instantiation used by the N-prefixed MTL keywords. -/
def take_single_f32 (data : List String) : Except ParseErr ℚ :=
  match data with
  | [] => .error (.notEnoughData 0 1)
  | s :: _ =>
    match parseFloat? s with
    | some v => .ok v
    | none => .error .numFormat

/-- take_single instantiated at u32, as used by the illum MTL keyword. -/
def take_single_u32 (data : List String) : Except ParseErr Nat :=
  match data with
  | [] => .error (.notEnoughData 0 1)
  | s :: _ =>
    match parseU32 s with
    | some v => .ok v
    | none => .error .numFormat

/-- take_vec2 (parser.rs): consume two tokens, parse both as f32, in order. -/
def take_vec2 (data : List String) : Except ParseErr Vec2 :=
  match data with
  | [] => .error (.notEnoughData 0 2)
  | [_] => .error (.notEnoughData 1 2)
  | a :: b :: _ =>
    match parseFloat? a with
    | none => .error .numFormat
    | some x =>
      match parseFloat? b with
      | none => .error .numFormat
      | some y => .ok ⟨x, y⟩

/-- take_vec3 (parser.rs): consume three tokens, parse all as f32, in order. -/
def take_vec3 (data : List String) : Except ParseErr Vec3 :=
  match data with
  | [] => .error (.notEnoughData 0 3)
  | [_] => .error (.notEnoughData 1 3)
  | [_, _] => .error (.notEnoughData 2 3)
  | a :: b :: c :: _ =>
    match parseFloat? a with
    | none => .error .numFormat
    | some x =>
      match parseFloat? b with
      | none => .error .numFormat
      | some y =>
        match parseFloat? c with
        | none => .error .numFormat
        | some z => .ok ⟨x, y, z⟩

/-- enum MaterialProperty (wavefront_obj/mod.rs). -/
inductive MaterialProperty : Type where
  | float (v : ℚ)
  | integer (v : Nat)
  | vector (v : Vec3)
  | path (v : String)
  deriving DecidableEq, Repr

/-- struct Material (wavefront_obj/mod.rs); the HashMap of properties is an
association list with insert-or-replace semantics. -/
structure Material where
  name : String
  properties : List (String × MaterialProperty)
  deriving DecidableEq, Repr

/-- HashMap::insert — replace the value if the key is present, otherwise add
the entry. -/
def insertProp (m : List (String × MaterialProperty)) (k : String)
    (v : MaterialProperty) : List (String × MaterialProperty) :=
  if m.any (fun p => p.1 = k) then
    m.map (fun p => if p.1 = k then (k, v) else p)
  else m ++ [(k, v)]

/-- struct MtlBuffer (parser.rs): the MTL accumulator. -/
structure MtlBuffer where
  name : String
  properties : List (String × MaterialProperty)
  complete_materials : List Material
  deriving DecidableEq, Repr

/-- MtlBuffer::default(). -/
def MtlBuffer.init : MtlBuffer := ⟨"", [], []⟩

/-- MtlBuffer::commit_material: push the accumulator as a Material only when
it has at least one property, then clear the property map. -/
def MtlBuffer.commit_material (b : MtlBuffer) : MtlBuffer :=
  if b.properties.length > 0 then
    { b with
      complete_materials := b.complete_materials ++ [⟨b.name, b.properties⟩]
      properties := [] }
  else
    { b with properties := [] }

/-- str::trim over the character list (the std String functions are not
kernel-reducible, so the embedding works on List Char throughout). -/
def trimChars (cs : List Char) : List Char :=
  (((cs.dropWhile Char.isWhitespace).reverse).dropWhile Char.isWhitespace).reverse

/-- str::split_whitespace over the character list: maximal nonempty runs of
non-whitespace characters. -/
def splitWsAux : List Char → List Char → List (List Char)
  | [], acc => if acc = [] then [] else [acc.reverse]
  | c :: rest, acc =>
    if c.isWhitespace then
      if acc = [] then splitWsAux rest []
      else acc.reverse :: splitWsAux rest []
    else splitWsAux rest (c :: acc)

/-- str::split_whitespace, producing strings. -/
def splitWs (cs : List Char) : List (List Char) := splitWsAux cs []

/-- str::split(sep), which keeps empty fragments (so the empty string yields
one empty fragment). -/
def splitCharList (sep : Char) : List Char → List (List Char)
  | [] => [[]]
  | c :: rest =>
    if c = sep then [] :: splitCharList sep rest
    else
      match splitCharList sep rest with
      | [] => [[c]]
      | w :: ws => (c :: w) :: ws

/-- str::split applied to a string, producing strings. -/
def splitStr (sep : Char) (s : String) : List String :=
  (splitCharList sep s.data).map (fun w => String.mk w)

/-- str::starts_with for a literal, via character lists. -/
def strStartsWith (s p : String) : Bool := p.data.isPrefixOf s.data

/-- Line classification shared by the OBJ and MTL loops: skip the line when
its trimmed form is empty or starts with the comment character, otherwise
split on whitespace into a keyword and argument tokens. -/
def tokenizeLine (line : String) : Option (String × List String) :=
  let trimmed := trimChars line.data
  if trimmed = [] ∨ trimmed.head? = some '#' then none
  else
    match (splitWs trimmed).map (fun w => String.mk w) with
    | [] => none
    | kw :: args => some (kw, args)

/-- process_mtl_line (parser.rs): keyword dispatch of the MTL state machine,
with the match arms in source order. -/
def process_mtl_line (b : MtlBuffer) (keyword : String) (data : List String) :
    Except ParseErr MtlBuffer :=
  if keyword = "newmtl" then
    let b := b.commit_material
    .ok { b with name := (data.head?).getD "" }
  else if keyword = "illum" then
    match take_single_u32 data with
    | .error e => .error e
    | .ok v => .ok { b with properties := insertProp b.properties "illum" (.integer v) }
  else if strStartsWith keyword "K" then
    match take_vec3 data with
    | .error e => .error e
    | .ok v => .ok { b with properties := insertProp b.properties keyword (.vector v) }
  else if strStartsWith keyword "N" then
    match take_single_f32 data with
    | .error e => .error e
    | .ok v => .ok { b with properties := insertProp b.properties keyword (.float v) }
  else if strStartsWith keyword "map_" then
    .ok { b with properties := insertProp b.properties keyword (.path ((data.head?).getD "")) }
  else
    .ok b

/-- parse_mtl (parser.rs): run the line loop of the MTL parser over the given
lines. The loop ends at EOF without any commit of the accumulator. -/
def parse_mtl (b : MtlBuffer) : List String → Except ParseErr MtlBuffer
  | [] => .ok b
  | line :: rest =>
    match tokenizeLine line with
    | none => parse_mtl b rest
    | some (kw, data) =>
      match process_mtl_line b kw data with
      | .error e => .error e
      | .ok b' => parse_mtl b' rest


/-- struct FaceIndexPair (wavefront_obj/mod.rs): a NonZeroUsize vertex index
with optional NonZeroUsize uv and normal indices. NonZeroUsize is modelled as
Nat; the parser only ever stores nonzero values (proved below). -/
structure FaceIndexPair where
  v : Nat
  uv? : Option Nat
  n? : Option Nat
  deriving DecidableEq, Repr

/-- struct Group (wavefront_obj/mod.rs); the bare name Group is taken by
Mathlib, so the structure lives in the Wavefront namespace. -/
structure Wavefront.Group where
  name : Option String
  material_name : Option String
  vertices : List Vec3
  texture_uvs : List Vec2
  normals : List Vec3
  face_index_pairs : List (List FaceIndexPair)
  deriving DecidableEq, Repr

/-- struct Object (wavefront_obj/mod.rs). -/
structure Object where
  name : Option String
  groups : List Wavefront.Group
  deriving DecidableEq, Repr

/-- struct WavefrontObj (wavefront_obj/mod.rs). -/
structure WavefrontObj where
  objects : List Object
  materials : List Material
  deriving DecidableEq, Repr

/-- struct GroupBuffer (parser.rs): the in-progress group accumulator. -/
structure GroupBuffer where
  name : Option String
  material_name : Option String
  vertices : List Vec3
  vertex_normals : List Vec3
  texture_uvs : List Vec2
  faces : List (List FaceIndexPair)
  deriving DecidableEq, Repr

/-- GroupBuffer::default(). -/
def GroupBuffer.init : GroupBuffer := ⟨none, none, [], [], [], []⟩

/-- struct ObjectBuffer (parser.rs). Its groups field is present in the
source but never written; kept for fidelity. -/
structure ObjectBuffer where
  name : Option String
  groups : List Wavefront.Group
  deriving DecidableEq, Repr

/-- ObjectBuffer::default(). -/
def ObjectBuffer.init : ObjectBuffer := ⟨none, []⟩

/-- struct ObjBuffer (parser.rs): the whole OBJ parser state. -/
structure ObjBuffer where
  index_offsets : Nat × Nat × Nat
  object_buffer : ObjectBuffer
  group_buffer : GroupBuffer
  complete_objects : List Object
  complete_groups : List Wavefront.Group
  deriving DecidableEq, Repr

/-- ObjBuffer::default(). -/
def ObjBuffer.init : ObjBuffer := ⟨(0, 0, 0), ObjectBuffer.init, GroupBuffer.init, [], []⟩

/-- ObjBuffer::commit_group: always advance the running offsets by the
accumulator's element counts; push the group (with material_name cleared, as
in the source) only when it has at least one face; reset the accumulator. -/
def ObjBuffer.commit_group (b : ObjBuffer) : ObjBuffer :=
  let b := { b with
    index_offsets :=
      (b.index_offsets.1 + b.group_buffer.vertices.length,
       b.index_offsets.2.1 + b.group_buffer.texture_uvs.length,
       b.index_offsets.2.2 + b.group_buffer.vertex_normals.length) }
  if b.group_buffer.faces.length > 0 then
    { b with
      complete_groups := b.complete_groups ++
        [{ name := b.group_buffer.name
           material_name := none
           vertices := b.group_buffer.vertices
           texture_uvs := b.group_buffer.texture_uvs
           normals := b.group_buffer.vertex_normals
           face_index_pairs := b.group_buffer.faces }]
      group_buffer := GroupBuffer.init }
  else
    { b with group_buffer := GroupBuffer.init }

/-- ObjBuffer::commit_object: commit the group, then push the object only
when at least one group was committed; reset the object accumulator. -/
def ObjBuffer.commit_object (b : ObjBuffer) : ObjBuffer :=
  let b := b.commit_group
  if b.complete_groups.length > 0 then
    { b with
      complete_objects := b.complete_objects ++
        [{ name := b.object_buffer.name, groups := b.complete_groups }]
      complete_groups := []
      object_buffer := ObjectBuffer.init }
  else
    { b with object_buffer := ObjectBuffer.init }

/-- The try_fold body of parse_face: walk the slash-separated parts zipped
with the three running offsets; an empty part contributes none; a non-empty
part is parsed as usize, then reduced by the offset, and the result must be
nonzero (NonZeroUsize::new .. ok_or(InvalidIndex)). A part whose parsed value
is below its offset underflows the usize subtraction. -/
def collectIndices : List (String × Nat) → Except ParseErr (List (Option Nat))
  | [] => .ok []
  | (s, off) :: rest =>
    if s = "" then
      match collectIndices rest with
      | .error e => .error e
      | .ok v => .ok (none :: v)
    else
      match parseUsize s with
      | none => .error .numFormat
      | some parsed =>
        if parsed < off then .error .usizeUnderflow
        else if parsed - off = 0 then .error .invalidIndex
        else
          match collectIndices rest with
          | .error e => .error e
          | .ok v => .ok (some (parsed - off) :: v)

/-- Per-token body of parse_face: split on the slash character, zip with the
offsets array (zip truncates to at most three parts), fold, then require
exactly one or exactly three collected entries, with a present first entry. -/
def parseFaceToken (offsets : Nat × Nat × Nat) (parts : List String) :
    Except ParseErr FaceIndexPair :=
  match collectIndices (parts.zip [offsets.1, offsets.2.1, offsets.2.2]) with
  | .error e => .error e
  | .ok indices =>
    match indices with
    | [some n] => .ok ⟨n, none, none⟩
    | [none] => .error .invalidIndex
    | [some n, i1, i2] => .ok ⟨n, i1, i2⟩
    | [none, _, _] => .error .invalidIndex
    | _ => .error .invalidFaceVertex

/-- parse_face (parser.rs): map the per-token parser over the tokens of the
f line, collecting one FaceIndexPair per token. -/
def parse_face (offsets : Nat × Nat × Nat) : List String → Except ParseErr (List FaceIndexPair)
  | [] => .ok []
  | tok :: rest =>
    match parseFaceToken offsets (splitStr '/' tok) with
    | .error e => .error e
    | .ok pair =>
      match parse_face offsets rest with
      | .error e => .error e
      | .ok pairs => .ok (pair :: pairs)

/-- process_obj_line (parser.rs): the OBJ keyword dispatch. The mtllib arm
resolves the path through the caller-supplied include function and runs the
MTL parser over the resolved lines, mutating the shared MTL buffer. -/
def process_obj_line (inc : String → Except ParseErr (List String))
    (ob : ObjBuffer) (mb : MtlBuffer) (keyword : String) (data : List String) :
    Except ParseErr (ObjBuffer × MtlBuffer) :=
  if keyword = "mtllib" then
    match data.head? with
    | none => .error .pathNotFound
    | some path =>
      match inc path with
      | .error e => .error e
      | .ok mtlLines =>
        match parse_mtl mb mtlLines with
        | .error e => .error e
        | .ok mb' => .ok (ob, mb')
  else if keyword = "o" then
    let ob := ob.commit_object
    .ok ({ ob with object_buffer := { ob.object_buffer with name := data.head? } }, mb)
  else if keyword = "g" then
    let ob := ob.commit_group
    .ok ({ ob with group_buffer := { ob.group_buffer with name := data.head? } }, mb)
  else if keyword = "usemtl" then
    .ok ({ ob with group_buffer := { ob.group_buffer with material_name := data.head? } }, mb)
  else if keyword = "v" then
    match take_vec3 data with
    | .error e => .error e
    | .ok v =>
      .ok ({ ob with group_buffer :=
        { ob.group_buffer with vertices := ob.group_buffer.vertices ++ [v] } }, mb)
  else if keyword = "vt" then
    match take_vec2 data with
    | .error e => .error e
    | .ok v =>
      .ok ({ ob with group_buffer :=
        { ob.group_buffer with texture_uvs := ob.group_buffer.texture_uvs ++ [v] } }, mb)
  else if keyword = "vn" then
    match take_vec3 data with
    | .error e => .error e
    | .ok v =>
      .ok ({ ob with group_buffer :=
        { ob.group_buffer with
          vertex_normals := ob.group_buffer.vertex_normals ++ [v.normalized] } }, mb)
  else if keyword = "f" then
    match parse_face ob.index_offsets data with
    | .error e => .error e
    | .ok face =>
      .ok ({ ob with group_buffer :=
        { ob.group_buffer with faces := ob.group_buffer.faces ++ [face] } }, mb)
  else
    .ok (ob, mb)

/-- The line loop of Parser::parse: classify each line, skipping blank and
comment lines, and process the rest. -/
def parse_lines (inc : String → Except ParseErr (List String)) :
    ObjBuffer → MtlBuffer → List String → Except ParseErr (ObjBuffer × MtlBuffer)
  | ob, mb, [] => .ok (ob, mb)
  | ob, mb, line :: rest =>
    match tokenizeLine line with
    | none => parse_lines inc ob mb rest
    | some (kw, data) =>
      match process_obj_line inc ob mb kw data with
      | .error e => .error e
      | .ok (ob', mb') => parse_lines inc ob' mb' rest

/-- Parser::parse (parser.rs): run the line loop from the default buffers,
commit the final object, and assemble the parse result. The MTL buffer is
never committed here — only a newmtl line inside parse_mtl commits. -/
def parse (inc : String → Except ParseErr (List String)) (lines : List String) :
    Except ParseErr WavefrontObj :=
  match parse_lines inc ObjBuffer.init MtlBuffer.init lines with
  | .error e => .error e
  | .ok (ob, mb) =>
    let ob := ob.commit_object
    .ok ⟨ob.complete_objects, mb.complete_materials⟩

/-- One step of the FaceVertices iterator (wavefront_obj/mod.rs): fetch the
vertex (and optional uv/normal) addressed by an index pair, subtracting one
from each stored NonZeroUsize index. The Rust indexing panics out of range;
the model returns none there. -/
def Wavefront.Group.lookupPair (g : Wavefront.Group) (p : FaceIndexPair) : Option (Vec3 × Option Vec2 × Option Vec3) :=
  match g.vertices.get? (p.v - 1) with
  | none => none
  | some v =>
    match p.uv? with
    | none =>
      match p.n? with
      | none => some (v, none, none)
      | some ni =>
        match g.normals.get? (ni - 1) with
        | none => none
        | some n => some (v, none, some n)
    | some ui =>
      match g.texture_uvs.get? (ui - 1) with
      | none => none
      | some uv =>
        match p.n? with
        | none => some (v, some uv, none)
        | some ni =>
          match g.normals.get? (ni - 1) with
          | none => none
          | some n => some (v, some uv, some n)

/-- A face index pair is safe for a group when every lookup it requests is in
range; this is what FaceVertices::next needs to avoid a panic. -/
def Wavefront.Group.pairInBounds (g : Wavefront.Group) (p : FaceIndexPair) : Prop :=
  p.v - 1 < g.vertices.length ∧
  (∀ u ∈ p.uv?, u - 1 < g.texture_uvs.length) ∧
  (∀ n ∈ p.n?, n - 1 < g.normals.length)


/-- AmbientLight (common/environment.rs). -/
structure AmbientLight where
  intensity : Vec3
  deriving DecidableEq, Repr

/-- ImageLight (common/environment.rs), generic over the texture handle. -/
structure ImageLight (T : Type) where
  texture : T
  intensity : ℚ

/-- DirectionalLight (common/environment.rs). -/
structure DirectionalLight where
  intensity : Vec3
  direction : Vec3
  deriving DecidableEq, Repr

/-- PointLight (common/environment.rs). -/
structure PointLight where
  intensity : Vec3
  position : Vec3
  deriving DecidableEq, Repr

/-- View (common/environment.rs). -/
structure View where
  view_matrix : Mat4
  projection_matrix : Mat4
  screen_dimensions : Vec2
  deriving DecidableEq, Repr

/-- Environment (common/environment.rs). The luminance history is the fixed
array [f32; 16], modelled as a function out of Fin 16; elapsed is a Duration
in nanoseconds. -/
structure Environment (T : Type) where
  ambient_light : AmbientLight
  image_light : Option (ImageLight T)
  directional_lights : List DirectionalLight
  point_lights : List PointLight
  view : View
  elapsed : Nat
  luminance : Fin 16 → ℚ

/-- Environment::new. -/
def Environment.new (T : Type) (view : View) : Environment T :=
  { ambient_light := ⟨⟨0, 0, 0⟩⟩
    image_light := none
    directional_lights := []
    point_lights := []
    view := view
    elapsed := 0
    luminance := fun _ => 0 }

/-- Environment::tick: advance the elapsed-time accumulator. -/
def Environment.tick {T : Type} (e : Environment T) (delta : Nat) : Environment T :=
  { e with elapsed := e.elapsed + delta }

/-- Environment::update_luminance: copy slots 1..16 of the old array down to
slots 0..15 of a fresh array, write the new value at slot 15, and replace the
array. -/
def Environment.update_luminance {T : Type} (e : Environment T) (l : ℚ) : Environment T :=
  { e with
    luminance := fun i =>
      if h : i.val < 15 then e.luminance ⟨i.val + 1, by omega⟩ else l }

/-- Material enum of the GL4 application (derky-gl4/src/application/material.rs),
generic over the texture handle. -/
inductive Gl4Material (Tex : Type) : Type where
  | diffuse (albedo : Tex) (color : Vec4)
  | specular (albedo : Tex) (color : Vec4) (intensity : ℚ)
  | unlit (albedo : Tex)
  deriving DecidableEq, Repr

/-- Whether a visited pair's material is present and diffuse — the only case
the GL4 geometry pass actually draws. -/
def Gl4Material.isDiffuseOpt {Tex : Type} : Option (Gl4Material Tex) → Bool
  | some (.diffuse _ _) => true
  | _ => false

/-- Albedo texture of a present diffuse material, if any. -/
def Gl4Material.albedoOf {Tex : Type} : Option (Gl4Material Tex) → Option Tex
  | some (.diffuse a _) => some a
  | _ => none

/-- The model-visiting loop of the GL4 draw_geometry (derky-gl4, mod.rs,
lines 111-133): each visited pair with a present diffuse material issues one
draw (recorded as the pair of vertex group and bound albedo texture); any
other pair makes the function return early with Ok(()), abandoning the whole
pass. The Bool records whether that early return fired. -/
def gl4DrawVisit {VG Tex : Type} :
    List (VG × Option (Gl4Material Tex)) → List (VG × Tex) × Bool
  | [] => ([], false)
  | (mg, mat) :: rest =>
    match mat with
    | some (.diffuse albedo _) =>
      let r := gl4DrawVisit rest
      ((mg, albedo) :: r.1, r.2)
    | _ => ([], true)

/-- Application::draw_geometry of the GL4 variant: visit the room model, then
the main model, in that fixed registration order; an early return inside
either visit ends the pass immediately. Returns the issued draw calls. -/
def gl4_draw_geometry {VG Tex : Type}
    (room main : List (VG × Option (Gl4Material Tex))) : List (VG × Tex) :=
  let r := gl4DrawVisit room
  if r.2 then r.1 else r.1 ++ (gl4DrawVisit main).1

/-- Graphics-context commands issued by the D3D11 code paths, recorded as an
abstract trace. -/
inductive Cmd (VG Tex : Type) : Type where
  | clearDepthStencil
  | clearRenderTarget (idx : Nat)
  | setRenderTarget (count : Nat) (withDepth : Bool)
  | setBlendState
  | setViewport
  | setShaders
  | setConstantBufferVertex (slot : Nat)
  | setConstantBufferPixel (slot : Nat)
  | setSampler (slot : Nat)
  | setTexture (slot : Nat) (t : Option Tex)
  | setVertices (vg : VG)
  | drawIndexed (vg : VG)
  | resetRenderTargets
  | updateConstants
  | present
  deriving DecidableEq, Repr

/-- The three context calls issued per visited pair in the D3D11 draws. -/
def drawPairCmds {VG Tex : Type} (p : VG × Option Tex) : List (Cmd VG Tex) :=
  [.setTexture 0 p.2, .setVertices p.1, .drawIndexed p.1]

/-- Application::draw_geometry of the D3D11 variant (derky-d3d11, mod.rs):
clear the depth stencil and the four G-Buffer targets, bind state, then for
the main model and the room model — in that fixed registration order — issue
set_texture / set_vertices / draw_with_indices per visited pair. -/
def d3d11_draw_geometry {VG Tex : Type}
    (model room_model : List (VG × Option Tex)) : List (Cmd VG Tex) :=
  [Cmd.clearDepthStencil] ++
  ((List.range 4).map Cmd.clearRenderTarget) ++
  [Cmd.setRenderTarget 4 true, Cmd.setBlendState, Cmd.setViewport, Cmd.setShaders,
   Cmd.setConstantBufferVertex 0, Cmd.setConstantBufferVertex 1,
   Cmd.setConstantBufferPixel 0, Cmd.setConstantBufferPixel 1, Cmd.setSampler 0] ++
  (model.map drawPairCmds).flatten ++
  (room_model.map drawPairCmds).flatten ++
  [Cmd.resetRenderTargets]

/-- Indexed draws of a command trace, each paired with the texture bound in
slot 0 at the moment the draw is issued. -/
def drawsWithBoundTexture {VG Tex : Type} :
    List (Cmd VG Tex) → Option Tex → List (VG × Option Tex)
  | [], _ => []
  | .setTexture 0 t :: rest, _ => drawsWithBoundTexture rest t
  | .drawIndexed vg :: rest, cur => (vg, cur) :: drawsWithBoundTexture rest cur
  | _ :: rest, cur => drawsWithBoundTexture rest cur

/-- Target frame interval of the main loop: 33,333,333 nanoseconds. -/
def frame_time : Nat := 33333333

/-- Mutable state of the event-loop closure that the frame throttle guards:
the Instant of the last processed frame, in nanoseconds. -/
structure MainLoopState where
  last_at : Nat
  deriving DecidableEq, Repr

/-- One invocation of the event-loop closure of derky-d3d11/src/main.rs
(lines 86-91 and following): compute the time since the last processed frame;
below the target interval, return immediately — no command is issued and
last_at keeps its value; otherwise reset last_at to now and run the frame
body (constants update, clears, binds, one draw per visited model pair,
present). -/
def main_iteration {VG Tex : Type} (pairs : List (VG × Option Tex))
    (s : MainLoopState) (now : Nat) : MainLoopState × List (Cmd VG Tex) :=
  let delta := now - s.last_at
  if delta < frame_time then (s, [])
  else
    (⟨now⟩,
      [Cmd.updateConstants, Cmd.clearRenderTarget 0, Cmd.clearDepthStencil,
       Cmd.setRenderTarget 1 true, Cmd.setViewport, Cmd.setShaders,
       Cmd.setConstantBufferVertex 0] ++
      (pairs.map drawPairCmds).flatten ++
      [Cmd.present])

/-- Claim C1. The spec says the MTL accumulator in progress is committed when
EOF is reached; the code commits only on a following newmtl line. For the MTL
stream [newmtl A, Kd 1 0 0] — whose last named material has one property —
the parser reaches EOF with material A still in the accumulator and the
output material list empty, and a whole OBJ parse whose mtllib resolves to
that stream likewise returns no materials. -/
theorem mtl_parser_drops_final_material_at_eof :
    parse_mtl MtlBuffer.init ["newmtl A", "Kd 1 0 0"] =
      .ok ⟨"A", [("Kd", .vector ⟨1, 0, 0⟩)], []⟩ ∧
    parse (fun _ => .ok ["newmtl A", "Kd 1 0 0"]) ["mtllib m.mtl"] = .ok ⟨[], []⟩ :=
  ⟨by decide, by decide⟩

/-- Claim C2, counterexample. The token 1 under zero offsets has attribute
index zero after subtracting 1 and the running offset, which the claim says
must yield InvalidIndex; the parser instead accepts it and produces the index
pair (1, None, None). -/
theorem parse_face_accepts_zero_after_claimed_subtraction :
    parse_face (0, 0, 0) ["1"] = .ok [⟨1, none, none⟩] ∧ (1 : ℤ) - 1 - 0 ≤ 0 :=
  ⟨by decide, by decide⟩

/-- Claim C8, counterexample. A face vertex token with four slash-separated
parts is not rejected with InvalidFaceVertex: zipping the parts with the
three-element offsets array silently truncates to the first three parts, and
1/2/3/4 parses successfully as (1, 2, 3). -/
theorem parse_face_truncates_extra_parts :
    parse_face (0, 0, 0) ["1/2/3/4"] = .ok [⟨1, some 2, some 3⟩] ∧
    (splitStr '/' "1/2/3/4").length = 4 :=
  ⟨by decide, by decide⟩

/-- Claim C3, counterexample. The OBJ input [v 0 0 0, f 1 2] parses
successfully, committing a group whose vertex list has length 1 while its
face holds the stored index 2; the FaceVertices lookup of that pair runs out
of range (the Rust indexing panics), so the claimed in-bounds invariant fails
at commit time. -/
theorem parse_commits_out_of_range_face_index :
    parse (fun _ => .error .resolveError) ["v 0 0 0", "f 1 2"] =
      .ok ⟨[⟨none, [⟨none, none, [⟨0, 0, 0⟩], [], [],
        [[⟨1, none, none⟩, ⟨2, none, none⟩]]⟩]⟩], []⟩ ∧
    Wavefront.Group.lookupPair
      ⟨none, none, [⟨0, 0, 0⟩], [], [], [[⟨1, none, none⟩, ⟨2, none, none⟩]]⟩
      ⟨2, none, none⟩ = none ∧
    ¬ Wavefront.Group.pairInBounds
      ⟨none, none, [⟨0, 0, 0⟩], [], [], [[⟨1, none, none⟩, ⟨2, none, none⟩]]⟩
      ⟨2, none, none⟩ := by
  refine ⟨by decide, by decide, ?_⟩
  simp [Wavefront.Group.pairInBounds]

/-- Claim C4, counterexample. In the GL4 geometry pass a visited pair whose
material is absent (or not diffuse) makes draw_geometry return early: with
the room model holding one unbound pair and the main model holding one
drawable diffuse pair, zero draw calls are issued even though two
vertex-groups were visited — both are skipped. -/
theorem gl4_draw_geometry_skips_after_non_diffuse :
    @gl4_draw_geometry Nat Nat
      [(1, none)] [(2, some (.diffuse 7 ⟨0, 0, 0, 0⟩))] = [] ∧
    ([((1 : Nat), (none : Option (Gl4Material Nat)))] ++
      [((2 : Nat), some (Gl4Material.diffuse (7 : Nat) ⟨0, 0, 0, 0⟩))]).length = 2 :=
  ⟨by decide, by decide⟩

/-- Claim C10. update_luminance only replaces the luminance history: the
ambient light, image light, directional and point light lists, view and
elapsed-time fields of the environment are returned unchanged. -/
theorem update_luminance_only_touches_luminance (T : Type) (e : Environment T) (l : ℚ) :
    (e.update_luminance l).ambient_light = e.ambient_light ∧
    (e.update_luminance l).image_light = e.image_light ∧
    (e.update_luminance l).directional_lights = e.directional_lights ∧
    (e.update_luminance l).point_lights = e.point_lights ∧
    (e.update_luminance l).view = e.view ∧
    (e.update_luminance l).elapsed = e.elapsed :=
  ⟨rfl, rfl, rfl, rfl, rfl, rfl⟩

/-- Claim C9. When the time elapsed since the last processed frame is below
the target interval of 33,333,333 ns, the event-loop iteration issues no
graphics command at all and leaves the last-processed timestamp untouched:
sub-interval ticks are no-ops and are not queued. -/
theorem frame_throttle_no_effects {VG Tex : Type} (pairs : List (VG × Option Tex))
    (s : MainLoopState) (now : Nat) (h : now - s.last_at < frame_time) :
    main_iteration pairs s now = (s, ([] : List (Cmd VG Tex))) := by
  simp [main_iteration, h]

/-- Witness for the frame-throttle theorem at a concrete state. -/
theorem frame_throttle_no_effects_witness :
    @main_iteration Unit Unit [((), none)] ⟨100⟩ 105 = (⟨100⟩, []) :=
  frame_throttle_no_effects [((), none)] ⟨100⟩ 105 (by decide)

/-- Seventeen consecutive update_luminance calls with the values 1 through
17, in order. -/
def push17 {T : Type} (e : Environment T) : Environment T :=
  ((((((((((((((((e.update_luminance 1).update_luminance 2).update_luminance
    3).update_luminance 4).update_luminance 5).update_luminance
    6).update_luminance 7).update_luminance 8).update_luminance
    9).update_luminance 10).update_luminance 11).update_luminance
    12).update_luminance 13).update_luminance 14).update_luminance
    15).update_luminance 16).update_luminance 17

/-- Claim C5. From any environment state, 17 consecutive update_luminance
calls with the values 1..17 leave the history buffer equal to [2,...,17] of
length 16 (the oldest value is evicted, the newest sits at the end), and each
single call shifts slots 1..16 down to slots 0..15 and writes the new value
at slot 15. -/
theorem update_luminance_shift_register (T : Type) (e : Environment T) :
    List.ofFn (push17 e).luminance =
      [2, 3, 4, 5, 6, 7, 8, 9, 10, 11, 12, 13, 14, 15, 16, 17] ∧
    (List.ofFn (push17 e).luminance).length = 16 ∧
    (∀ (l : ℚ) (i : ℕ) (hi : i < 15),
      (e.update_luminance l).luminance ⟨i, by omega⟩ =
        e.luminance ⟨i + 1, by omega⟩) ∧
    (∀ l : ℚ, (e.update_luminance l).luminance ⟨15, by norm_num⟩ = l) := by
  refine ⟨?_, ?_, ?_, ?_⟩
  · simp only [List.ofFn_succ, List.ofFn_zero]
    rfl
  · simp
  · intro l i hi
    simp only [Environment.update_luminance]
    rw [dif_pos hi]
  · intro l
    simp only [Environment.update_luminance]
    rw [dif_neg (by norm_num)]

/-- Concrete all-zero view, used to instantiate environment witnesses. -/
def view0 : View := ⟨⟨⟨0, 0, 0, 0⟩, ⟨0, 0, 0, 0⟩, ⟨0, 0, 0, 0⟩, ⟨0, 0, 0, 0⟩⟩,
  ⟨⟨0, 0, 0, 0⟩, ⟨0, 0, 0, 0⟩, ⟨0, 0, 0, 0⟩, ⟨0, 0, 0, 0⟩⟩, ⟨0, 0⟩⟩

/-- Witness for the shift-register theorem at a freshly constructed
environment. -/
theorem update_luminance_shift_register_witness :
    List.ofFn (push17 (Environment.new Unit view0)).luminance =
      [2, 3, 4, 5, 6, 7, 8, 9, 10, 11, 12, 13, 14, 15, 16, 17] ∧
    ((Environment.new Unit view0).update_luminance 9).luminance ⟨3, by norm_num⟩ =
      (Environment.new Unit view0).luminance ⟨4, by norm_num⟩ :=
  ⟨(update_luminance_shift_register Unit (Environment.new Unit view0)).1,
   (update_luminance_shift_register Unit (Environment.new Unit view0)).2.2.1 9 3
     (by norm_num)⟩

/-- The nonempty-properties invariant of committed materials: used to show
that no empty-property material ever reaches the output list. -/
def mtlInv (b : MtlBuffer) : Prop :=
  ∀ m ∈ b.complete_materials, m.properties ≠ []

theorem commit_material_mtlInv (b : MtlBuffer) (h : mtlInv b) :
    mtlInv b.commit_material := by
  intro m hm
  unfold MtlBuffer.commit_material at hm
  by_cases hp : b.properties.length > 0
  · simp only [hp, if_true] at hm
    rcases List.mem_append.mp hm with hold | hnew
    · exact h m hold
    · rcases List.mem_singleton.mp hnew with rfl
      intro hcon
      have hbp : b.properties = [] := hcon
      rw [hbp] at hp
      simp at hp
  · simp only [hp, if_false] at hm
    exact h m hm

theorem process_mtl_line_mtlInv (b : MtlBuffer) (kw : String) (data : List String)
    (b' : MtlBuffer) (h : process_mtl_line b kw data = .ok b') (hb : mtlInv b) :
    mtlInv b' := by
  unfold process_mtl_line at h
  split_ifs at h with h1 h2 h3 h4 h5
  · cases h
    exact commit_material_mtlInv b hb
  · cases htk : take_single_u32 data with
    | error e => rw [htk] at h; cases h
    | ok v => rw [htk] at h; cases h; exact hb
  · cases htk : take_vec3 data with
    | error e => rw [htk] at h; cases h
    | ok v => rw [htk] at h; cases h; exact hb
  · cases htk : take_single_f32 data with
    | error e => rw [htk] at h; cases h
    | ok v => rw [htk] at h; cases h; exact hb
  · cases h
    exact hb
  · cases h
    exact hb

theorem parse_mtl_mtlInv (lines : List String) :
    ∀ (b b' : MtlBuffer), parse_mtl b lines = .ok b' → mtlInv b → mtlInv b' := by
  induction lines with
  | nil =>
    intro b b' h hb
    cases h
    exact hb
  | cons line rest ih =>
    intro b b' h hb
    unfold parse_mtl at h
    cases htok : tokenizeLine line with
    | none =>
      rw [htok] at h
      exact ih b b' h hb
    | some kd =>
      obtain ⟨kw, data⟩ := kd
      rw [htok] at h
      cases hp : process_mtl_line b kw data with
      | error e => simp only [hp] at h; cases h
      | ok b1 =>
        simp only [hp] at h
        exact ih b1 b' h (process_mtl_line_mtlInv b kw data b1 hp hb)

/-- Claim C7. A material with zero properties is never committed: from any
buffer whose committed materials all have at least one property, running the
MTL parser preserves that invariant — so from the initial buffer no
empty-property material ever appears in the output. In particular, for the
stream [newmtl A, newmtl B, Kd 1 0 0], material A (zero properties when
newmtl B arrives) is not committed: the output list stays empty, with B still
in the accumulator. -/
theorem mtl_commit_requires_property :
    (∀ (b : MtlBuffer) (lines : List String) (b' : MtlBuffer),
      parse_mtl b lines = .ok b' → mtlInv b → mtlInv b') ∧
    parse_mtl MtlBuffer.init ["newmtl A", "newmtl B", "Kd 1 0 0"] =
      .ok ⟨"B", [("Kd", .vector ⟨1, 0, 0⟩)], []⟩ :=
  ⟨fun b lines b' h hb => parse_mtl_mtlInv lines b b' h hb, by decide⟩

/-- Witness for the C7 theorem: the invariant transported along a concrete
successful parse. -/
theorem mtl_commit_requires_property_witness :
    mtlInv ⟨"B", [("Kd", MaterialProperty.vector ⟨1, 0, 0⟩)], []⟩ :=
  mtl_commit_requires_property.1 MtlBuffer.init
    ["newmtl A", "newmtl B", "Kd 1 0 0"]
    ⟨"B", [("Kd", MaterialProperty.vector ⟨1, 0, 0⟩)], []⟩
    (by decide) (by intro m hm; cases hm)

/-- The commit invariant of the OBJ buffer: every committed group has at
least one face, and every committed object has at least one group, all of
whose groups have at least one face. -/
def objInv (b : ObjBuffer) : Prop :=
  (∀ g ∈ b.complete_groups, g.face_index_pairs ≠ []) ∧
  (∀ o ∈ b.complete_objects, o.groups ≠ [] ∧ ∀ g ∈ o.groups, g.face_index_pairs ≠ [])

theorem commit_group_objInv (b : ObjBuffer) (hb : objInv b) :
    objInv b.commit_group := by
  obtain ⟨hg, ho⟩ := hb
  unfold ObjBuffer.commit_group
  by_cases hf : b.group_buffer.faces.length > 0
  · simp only [hf, if_true]
    refine ⟨?_, ho⟩
    intro g hgmem
    rcases List.mem_append.mp hgmem with hold | hnew
    · exact hg g hold
    · rcases List.mem_singleton.mp hnew with rfl
      intro hcon
      have : b.group_buffer.faces = [] := hcon
      rw [this] at hf
      simp at hf
  · simp only [hf, if_false]
    exact ⟨hg, ho⟩

theorem commit_object_objInv (b : ObjBuffer) (hb : objInv b) :
    objInv b.commit_object := by
  have h1 := commit_group_objInv b hb
  obtain ⟨hg, ho⟩ := h1
  unfold ObjBuffer.commit_object
  by_cases hc : b.commit_group.complete_groups.length > 0
  · simp only [hc, if_true]
    refine ⟨?_, ?_⟩
    · intro g hgmem
      cases hgmem
    intro o homem
    rcases List.mem_append.mp homem with hold | hnew
    · exact ho o hold
    · rcases List.mem_singleton.mp hnew with rfl
      constructor
      · intro hcon
        have : b.commit_group.complete_groups = [] := hcon
        rw [this] at hc
        simp at hc
      · exact hg
  · simp only [hc, if_false]
    exact ⟨hg, ho⟩

theorem process_obj_line_objInv (inc : String → Except ParseErr (List String))
    (ob : ObjBuffer) (mb : MtlBuffer) (kw : String) (data : List String)
    (s' : ObjBuffer × MtlBuffer) (h : process_obj_line inc ob mb kw data = .ok s')
    (hb : objInv ob) : objInv s'.1 := by
  unfold process_obj_line at h
  split_ifs at h with h1 h2 h3 h4 h5 h6 h7 h8
  · cases hd : data.head? with
    | none => rw [hd] at h; cases h
    | some path =>
      rw [hd] at h
      cases hi : inc path with
      | error e => simp only [hi] at h; cases h
      | ok mtlLines =>
        simp only [hi] at h
        cases hm : parse_mtl mb mtlLines with
        | error e => simp only [hm] at h; cases h
        | ok mb1 =>
          simp only [hm] at h
          cases h
          exact hb
  · cases h
    exact commit_object_objInv ob hb
  · cases h
    exact commit_group_objInv ob hb
  · cases h
    exact hb
  · cases htk : take_vec3 data with
    | error e => simp only [htk] at h; cases h
    | ok v => simp only [htk] at h; cases h; exact hb
  · cases htk : take_vec2 data with
    | error e => simp only [htk] at h; cases h
    | ok v => simp only [htk] at h; cases h; exact hb
  · cases htk : take_vec3 data with
    | error e => simp only [htk] at h; cases h
    | ok v => simp only [htk] at h; cases h; exact hb
  · cases htk : parse_face ob.index_offsets data with
    | error e => simp only [htk] at h; cases h
    | ok face => simp only [htk] at h; cases h; exact hb
  · cases h
    exact hb

theorem parse_lines_objInv (inc : String → Except ParseErr (List String))
    (lines : List String) :
    ∀ (ob : ObjBuffer) (mb : MtlBuffer) (s' : ObjBuffer × MtlBuffer),
      parse_lines inc ob mb lines = .ok s' → objInv ob → objInv s'.1 := by
  induction lines with
  | nil =>
    intro ob mb s' h hb
    cases h
    exact hb
  | cons line rest ih =>
    intro ob mb s' h hb
    unfold parse_lines at h
    cases htok : tokenizeLine line with
    | none =>
      rw [htok] at h
      exact ih ob mb s' h hb
    | some kd =>
      obtain ⟨kw, data⟩ := kd
      rw [htok] at h
      cases hp : process_obj_line inc ob mb kw data with
      | error e => simp only [hp] at h; cases h
      | ok s1 =>
        simp only [hp] at h
        obtain ⟨ob1, mb1⟩ := s1
        exact ih ob1 mb1 s' h (process_obj_line_objInv inc ob mb kw data (ob1, mb1) hp hb)

/-- Claim C6. In every successful parse, every object of the result owns at
least one group and every group of every object owns at least one face
(empty groups and empty objects are discarded, never emitted); and
commit_group always advances the running index offsets by the accumulator's
element counts — also when the group is discarded for having no faces, in
which case the committed group list is left unchanged. -/
theorem parser_commits_only_nonempty :
    (∀ (inc : String → Except ParseErr (List String)) (lines : List String)
      (w : WavefrontObj), parse inc lines = .ok w →
      ∀ o ∈ w.objects, o.groups ≠ [] ∧ ∀ g ∈ o.groups, g.face_index_pairs ≠ []) ∧
    (∀ b : ObjBuffer,
      (b.commit_group).index_offsets =
        (b.index_offsets.1 + b.group_buffer.vertices.length,
         b.index_offsets.2.1 + b.group_buffer.texture_uvs.length,
         b.index_offsets.2.2 + b.group_buffer.vertex_normals.length) ∧
      (b.group_buffer.faces = [] →
        (b.commit_group).complete_groups = b.complete_groups)) := by
  constructor
  · intro inc lines w h o ho
    unfold parse at h
    cases hp : parse_lines inc ObjBuffer.init MtlBuffer.init lines with
    | error e => rw [hp] at h; cases h
    | ok s =>
      rw [hp] at h
      obtain ⟨ob, mb⟩ := s
      have hinit : objInv ObjBuffer.init := by
        constructor
        · intro g hg; cases hg
        · intro o ho; cases ho
      have hinv := parse_lines_objInv inc lines ObjBuffer.init MtlBuffer.init (ob, mb) hp hinit
      have hfin := commit_object_objInv ob hinv
      cases h
      exact hfin.2 o ho
  · intro b
    constructor
    · unfold ObjBuffer.commit_group
      by_cases hf : b.group_buffer.faces.length > 0 <;> simp [hf]
    · intro hfaces
      unfold ObjBuffer.commit_group
      simp [hfaces]

/-- Witness for the C6 theorem: the invariant and the offset rule at a
concrete parse and a concrete buffer. -/
theorem parser_commits_only_nonempty_witness :
    ((⟨none, [⟨none, none, [⟨0, 0, 0⟩], [], [], [[⟨1, none, none⟩]]⟩]⟩ : Object).groups ≠ [] ∧
      ∀ g ∈ (⟨none, [⟨none, none, [⟨0, 0, 0⟩], [], [], [[⟨1, none, none⟩]]⟩]⟩ : Object).groups,
        g.face_index_pairs ≠ []) ∧
    (ObjBuffer.init.commit_group).complete_groups = ObjBuffer.init.complete_groups :=
  ⟨parser_commits_only_nonempty.1 (fun _ => .error .resolveError)
      ["v 0 0 0", "f 1"]
      ⟨[⟨none, [⟨none, none, [⟨0, 0, 0⟩], [], [], [[⟨1, none, none⟩]]⟩]⟩], []⟩
      (by decide)
      ⟨none, [⟨none, none, [⟨0, 0, 0⟩], [], [], [[⟨1, none, none⟩]]⟩]⟩
      (by simp),
   (parser_commits_only_nonempty.2 ObjBuffer.init).2 rfl⟩

/-- A face index pair is positive when its stored vertex index and any
present uv/normal index are at least one — the NonZeroUsize guarantee. -/
def FaceIndexPair.positive (p : FaceIndexPair) : Prop :=
  1 ≤ p.v ∧ (∀ u ∈ p.uv?, 1 ≤ u) ∧ (∀ n ∈ p.n?, 1 ≤ n)

/-- All pairs of all faces of a face list are positive. -/
def facesPositive (faces : List (List FaceIndexPair)) : Prop :=
  ∀ face ∈ faces, ∀ p ∈ face, p.positive

theorem collectIndices_positive :
    ∀ (l : List (String × Nat)) (v : List (Option Nat)),
      collectIndices l = .ok v → ∀ x ∈ v, ∀ n ∈ x, 1 ≤ n := by
  intro l
  induction l with
  | nil =>
    intro v h x hx
    cases h
    cases hx
  | cons sp rest ih =>
    intro v h x hx
    obtain ⟨s, off⟩ := sp
    unfold collectIndices at h
    by_cases hs : s = ""
    · rw [if_pos hs] at h
      cases hrec : collectIndices rest with
      | error e => simp only [hrec] at h; cases h
      | ok v' =>
        simp only [hrec] at h
        cases h
        rcases List.mem_cons.mp hx with rfl | hx'
        · intro n hn; cases hn
        · exact ih v' hrec x hx'
    · rw [if_neg hs] at h
      cases hp : parseUsize s with
      | none => simp only [hp] at h; cases h
      | some parsed =>
        simp only [hp] at h
        by_cases hlt : parsed < off
        · rw [if_pos hlt] at h; cases h
        · rw [if_neg hlt] at h
          by_cases hz : parsed - off = 0
          · rw [if_pos hz] at h; cases h
          · rw [if_neg hz] at h
            cases hrec : collectIndices rest with
            | error e => simp only [hrec] at h; cases h
            | ok v' =>
              simp only [hrec] at h
              cases h
              rcases List.mem_cons.mp hx with rfl | hx'
              · intro n hn
                have hno : parsed - off = n := Option.some_inj.mp (Option.mem_def.mp hn)
                omega
              · exact ih v' hrec x hx'

theorem parseFaceToken_positive (offsets : Nat × Nat × Nat) (parts : List String)
    (p : FaceIndexPair) (h : parseFaceToken offsets parts = .ok p) : p.positive := by
  unfold parseFaceToken at h
  cases hc : collectIndices (parts.zip [offsets.1, offsets.2.1, offsets.2.2]) with
  | error e => simp only [hc] at h; cases h
  | ok indices =>
    simp only [hc] at h
    have hpos := collectIndices_positive _ indices hc
    rcases indices with _ | ⟨i0, _ | ⟨i1, _ | ⟨i2, _ | ⟨i3, rest3⟩⟩⟩⟩
    · cases h
    · cases i0 with
      | none => cases h
      | some n =>
        cases h
        refine ⟨?_, ?_, ?_⟩
        · exact hpos (some n) (by simp) n (by simp)
        · intro u hu; cases hu
        · intro n' hn'; cases hn'
    · cases i0 <;> cases h
    · cases i0 with
      | none => cases h
      | some n =>
        cases h
        refine ⟨?_, ?_, ?_⟩
        · exact hpos (some n) (by simp) n (by simp)
        · intro u hu
          exact hpos i1 (by simp) u hu
        · intro n' hn'
          exact hpos i2 (by simp) n' hn'
    · cases i0 <;> cases h

theorem parse_face_positive (offsets : Nat × Nat × Nat) :
    ∀ (toks : List String) (pairs : List FaceIndexPair),
      parse_face offsets toks = .ok pairs → ∀ p ∈ pairs, p.positive := by
  intro toks
  induction toks with
  | nil =>
    intro pairs h p hp
    cases h
    cases hp
  | cons tok rest ih =>
    intro pairs h p hp
    unfold parse_face at h
    cases ht : parseFaceToken offsets (splitStr '/' tok) with
    | error e => simp only [ht] at h; cases h
    | ok pair =>
      simp only [ht] at h
      cases hr : parse_face offsets rest with
      | error e => simp only [hr] at h; cases h
      | ok pairs' =>
        simp only [hr] at h
        cases h
        rcases List.mem_cons.mp hp with rfl | hp'
        · exact parseFaceToken_positive offsets (splitStr '/' tok) p ht
        · exact ih pairs' hr p hp'

/-- The positivity invariant over the whole OBJ buffer. -/
def objPosInv (b : ObjBuffer) : Prop :=
  facesPositive b.group_buffer.faces ∧
  (∀ g ∈ b.complete_groups, facesPositive g.face_index_pairs) ∧
  (∀ o ∈ b.complete_objects, ∀ g ∈ o.groups, facesPositive g.face_index_pairs)

theorem commit_group_objPosInv (b : ObjBuffer) (hb : objPosInv b) :
    objPosInv b.commit_group := by
  obtain ⟨hgb, hg, ho⟩ := hb
  unfold ObjBuffer.commit_group
  by_cases hf : b.group_buffer.faces.length > 0
  · simp only [hf, if_true]
    refine ⟨?_, ?_, ho⟩
    · intro face hface
      cases hface
    · intro g hgmem
      rcases List.mem_append.mp hgmem with hold | hnew
      · exact hg g hold
      · rcases List.mem_singleton.mp hnew with rfl
        exact hgb
  · simp only [hf, if_false]
    refine ⟨?_, hg, ho⟩
    intro face hface
    cases hface

theorem commit_object_objPosInv (b : ObjBuffer) (hb : objPosInv b) :
    objPosInv b.commit_object := by
  have h1 := commit_group_objPosInv b hb
  obtain ⟨hgb, hg, ho⟩ := h1
  unfold ObjBuffer.commit_object
  by_cases hc : b.commit_group.complete_groups.length > 0
  · simp only [hc, if_true]
    refine ⟨hgb, ?_, ?_⟩
    · intro g hgmem
      cases hgmem
    · intro o homem
      rcases List.mem_append.mp homem with hold | hnew
      · exact ho o hold
      · rcases List.mem_singleton.mp hnew with rfl
        exact hg
  · simp only [hc, if_false]
    exact ⟨hgb, hg, ho⟩

theorem process_obj_line_objPosInv (inc : String → Except ParseErr (List String))
    (ob : ObjBuffer) (mb : MtlBuffer) (kw : String) (data : List String)
    (s' : ObjBuffer × MtlBuffer) (h : process_obj_line inc ob mb kw data = .ok s')
    (hb : objPosInv ob) : objPosInv s'.1 := by
  unfold process_obj_line at h
  split_ifs at h with h1 h2 h3 h4 h5 h6 h7 h8
  · cases hd : data.head? with
    | none => rw [hd] at h; cases h
    | some path =>
      rw [hd] at h
      cases hi : inc path with
      | error e => simp only [hi] at h; cases h
      | ok mtlLines =>
        simp only [hi] at h
        cases hm : parse_mtl mb mtlLines with
        | error e => simp only [hm] at h; cases h
        | ok mb1 =>
          simp only [hm] at h
          cases h
          exact hb
  · cases h
    exact commit_object_objPosInv ob hb
  · cases h
    exact commit_group_objPosInv ob hb
  · cases h
    exact hb
  · cases htk : take_vec3 data with
    | error e => simp only [htk] at h; cases h
    | ok v => simp only [htk] at h; cases h; exact hb
  · cases htk : take_vec2 data with
    | error e => simp only [htk] at h; cases h
    | ok v => simp only [htk] at h; cases h; exact hb
  · cases htk : take_vec3 data with
    | error e => simp only [htk] at h; cases h
    | ok v => simp only [htk] at h; cases h; exact hb
  · cases htk : parse_face ob.index_offsets data with
    | error e => simp only [htk] at h; cases h
    | ok face =>
      simp only [htk] at h
      cases h
      obtain ⟨hgb, hg, ho⟩ := hb
      refine ⟨?_, hg, ho⟩
      intro f hf
      rcases List.mem_append.mp hf with hold | hnew
      · exact hgb f hold
      · rcases List.mem_singleton.mp hnew with rfl
        exact parse_face_positive ob.index_offsets data f htk
  · cases h
    exact hb

theorem parse_lines_objPosInv (inc : String → Except ParseErr (List String))
    (lines : List String) :
    ∀ (ob : ObjBuffer) (mb : MtlBuffer) (s' : ObjBuffer × MtlBuffer),
      parse_lines inc ob mb lines = .ok s' → objPosInv ob → objPosInv s'.1 := by
  induction lines with
  | nil =>
    intro ob mb s' h hb
    cases h
    exact hb
  | cons line rest ih =>
    intro ob mb s' h hb
    unfold parse_lines at h
    cases htok : tokenizeLine line with
    | none =>
      rw [htok] at h
      exact ih ob mb s' h hb
    | some kd =>
      obtain ⟨kw, data⟩ := kd
      rw [htok] at h
      cases hp : process_obj_line inc ob mb kw data with
      | error e => simp only [hp] at h; cases h
      | ok s1 =>
        simp only [hp] at h
        obtain ⟨ob1, mb1⟩ := s1
        exact ih ob1 mb1 s' h (process_obj_line_objPosInv inc ob mb kw data (ob1, mb1) hp hb)

/-- Claim C3, amended. The parser does not bounds-check face indices against
the group's element lists (commit imposes no in-range invariant, as the
counterexample shows); what every successful parse does guarantee is the
NonZeroUsize property: every stored vertex index, and every present uv or
normal index, of every committed face is at least 1. -/
theorem parse_face_indices_nonzero :
    ∀ (inc : String → Except ParseErr (List String)) (lines : List String)
      (w : WavefrontObj), parse inc lines = .ok w →
      ∀ o ∈ w.objects, ∀ g ∈ o.groups, facesPositive g.face_index_pairs := by
  intro inc lines w h o ho
  unfold parse at h
  cases hp : parse_lines inc ObjBuffer.init MtlBuffer.init lines with
  | error e => rw [hp] at h; cases h
  | ok s =>
    rw [hp] at h
    obtain ⟨ob, mb⟩ := s
    have hinit : objPosInv ObjBuffer.init := by
      refine ⟨?_, ?_, ?_⟩
      · intro f hf; cases hf
      · intro g hg; cases hg
      · intro o ho; cases ho
    have hinv := parse_lines_objPosInv inc lines ObjBuffer.init MtlBuffer.init (ob, mb) hp hinit
    have hfin := commit_object_objPosInv ob hinv
    cases h
    exact hfin.2.2 o ho

/-- Witness for the positivity theorem along a concrete successful parse. -/
theorem parse_face_indices_nonzero_witness :
    facesPositive [[⟨1, none, none⟩, ⟨2, none, none⟩]] :=
  parse_face_indices_nonzero (fun _ => .error .resolveError) ["v 0 0 0", "f 1 2"]
    ⟨[⟨none, [⟨none, none, [⟨0, 0, 0⟩], [], [], [[⟨1, none, none⟩, ⟨2, none, none⟩]]⟩]⟩], []⟩
    (by decide)
    ⟨none, [⟨none, none, [⟨0, 0, 0⟩], [], [], [[⟨1, none, none⟩, ⟨2, none, none⟩]]⟩]⟩
    (by simp)
    ⟨none, none, [⟨0, 0, 0⟩], [], [], [[⟨1, none, none⟩, ⟨2, none, none⟩]]⟩
    (by simp)

/-- Claim C2, amended. InvalidIndex is raised by a face token exactly when a
non-empty part's parsed value minus the running offset is zero (the check is
NonZeroUsize::new(parsed - offset), applied before any 1-subtraction): a
first part parsing to precisely the vertex offset aborts the parse with
InvalidIndex — in particular f 0 1 2 under zero offsets — while a parsed
value strictly below the offset underflows the unsigned subtraction (a
panic in debug builds, not an InvalidIndex error). -/
theorem parse_face_invalid_index_rule :
    (∀ (o1 o2 o3 : Nat) (tok : String) (toks : List String) (p : String)
      (rest : List String), splitStr '/' tok = p :: rest → parseUsize p = some o1 →
      parse_face (o1, o2, o3) (tok :: toks) = .error .invalidIndex) ∧
    (∀ (o1 o2 o3 : Nat) (tok : String) (toks : List String) (p : String)
      (rest : List String) (v : Nat), splitStr '/' tok = p :: rest →
      parseUsize p = some v → v < o1 →
      parse_face (o1, o2, o3) (tok :: toks) = .error .usizeUnderflow) ∧
    parse_face (0, 0, 0) ["0", "1", "2"] = .error .invalidIndex := by
  refine ⟨?_, ?_, by decide⟩
  · intro o1 o2 o3 tok toks p rest hsplit hparse
    have hpne : p ≠ "" := by
      intro hcon
      rw [hcon] at hparse
      rw [(rfl : parseUsize "" = none)] at hparse
      cases hparse
    have hcoll : collectIndices ((p :: rest).zip [o1, o2, o3]) =
        .error .invalidIndex := by
      rw [List.zip_cons_cons]
      unfold collectIndices
      rw [if_neg hpne]
      simp only [hparse]
      rw [if_neg (Nat.lt_irrefl o1), if_pos (Nat.sub_self o1)]
    unfold parse_face parseFaceToken
    rw [hsplit]
    simp only [hcoll]
  · intro o1 o2 o3 tok toks p rest v hsplit hparse hlt
    have hpne : p ≠ "" := by
      intro hcon
      rw [hcon] at hparse
      rw [(rfl : parseUsize "" = none)] at hparse
      cases hparse
    have hcoll : collectIndices ((p :: rest).zip [o1, o2, o3]) =
        .error .usizeUnderflow := by
      rw [List.zip_cons_cons]
      unfold collectIndices
      rw [if_neg hpne]
      simp only [hparse]
      rw [if_pos hlt]
    unfold parse_face parseFaceToken
    rw [hsplit]
    simp only [hcoll]

/-- Witness for the InvalidIndex rule: a parsed value equal to the offset
gives InvalidIndex; one below it gives the underflow outcome. -/
theorem parse_face_invalid_index_rule_witness :
    parse_face (2, 0, 0) ["2"] = .error .invalidIndex ∧
    parse_face (5, 0, 0) ["2"] = .error .usizeUnderflow :=
  ⟨parse_face_invalid_index_rule.1 2 0 0 "2" [] "2" [] (by decide) (by decide),
   parse_face_invalid_index_rule.2.1 5 0 0 "2" [] "2" [] 2 (by decide) (by decide)
     (by decide)⟩

/-- A slash-separated part is unproblematic for the index fold: it is empty,
or parses to a value strictly above its running offset. -/
def partOk (off : Nat) (s : String) : Bool :=
  s == "" ||
    (match parseUsize s with
     | some v => decide (off < v)
     | none => false)

theorem collectIndices_partOk_ok :
    ∀ (l : List (String × Nat)), (∀ so ∈ l, partOk so.2 so.1 = true) →
      ∃ v, collectIndices l = .ok v ∧ v.length = l.length := by
  intro l
  induction l with
  | nil =>
    intro _
    exact ⟨[], rfl, rfl⟩
  | cons sp rest ih =>
    intro hall
    obtain ⟨s, off⟩ := sp
    obtain ⟨v, hv, hlen⟩ := ih (fun so hso => hall so (List.mem_cons_of_mem _ hso))
    have hok := hall (s, off) (List.mem_cons_self _ _)
    unfold collectIndices
    by_cases hs : s = ""
    · rw [if_pos hs]
      simp only [hv]
      exact ⟨none :: v, rfl, by simp [hlen]⟩
    · rw [if_neg hs]
      unfold partOk at hok
      rw [Bool.or_eq_true] at hok
      rcases hok with hemp | hrest
      · exact absurd (by simpa using hemp : s = "") hs
      · cases hp : parseUsize s with
        | none => rw [hp] at hrest; cases hrest
        | some m =>
          rw [hp] at hrest
          have hoffm : off < m := of_decide_eq_true hrest
          simp only [hp]
          rw [if_neg (by omega : ¬ m < off), if_neg (by omega : ¬ m - off = 0)]
          simp only [hv]
          exact ⟨some (m - off) :: v, rfl, by simp [hlen]⟩

theorem zip_offsets_take (parts : List String) (a b c : Nat) :
    parts.zip [a, b, c] = (parts.take 3).zip [a, b, c] := by
  match parts with
  | [] => rfl
  | [_] => rfl
  | [_, _] => rfl
  | [_, _, _] => rfl
  | _ :: _ :: _ :: _ :: _ => rfl

/-- Claim C8, amended. A face vertex token must split into exactly one or
exactly three parts to produce an index pair, and a token of exactly two
well-formed parts is rejected with InvalidFaceVertex (in particular the
v/vt form f 1/2); but part counts above three are not rejected: the zip with
the three-element offsets array truncates the token to its first three parts,
so only the two-part form ever raises InvalidFaceVertex. -/
theorem parse_face_part_count_rule :
    (∀ (o1 o2 o3 : Nat) (tok : String) (toks : List String) (p1 p2 : String),
      splitStr '/' tok = [p1, p2] → partOk o1 p1 = true → partOk o2 p2 = true →
      parse_face (o1, o2, o3) (tok :: toks) = .error .invalidFaceVertex) ∧
    (∀ (offsets : Nat × Nat × Nat) (parts : List String),
      parseFaceToken offsets parts = parseFaceToken offsets (parts.take 3)) ∧
    parse_face (0, 0, 0) ["1/2"] = .error .invalidFaceVertex := by
  refine ⟨?_, ?_, by decide⟩
  · intro o1 o2 o3 tok toks p1 p2 hsplit h1 h2
    have hall : ∀ so ∈ [(p1, o1), (p2, o2)], partOk so.2 so.1 = true := by
      intro so hso
      rcases List.mem_cons.mp hso with rfl | hso'
      · exact h1
      · rcases List.mem_singleton.mp hso' with rfl
        exact h2
    obtain ⟨v, hv, hlen⟩ := collectIndices_partOk_ok [(p1, o1), (p2, o2)] hall
    have hzip : ([p1, p2] : List String).zip [o1, o2, o3] = [(p1, o1), (p2, o2)] := rfl
    rcases v with _ | ⟨x1, _ | ⟨x2, _ | ⟨x3, r⟩⟩⟩
    · simp at hlen
    · simp at hlen
    · unfold parse_face parseFaceToken
      rw [hsplit, hzip]
      simp only [hv]
    · simp at hlen
  · intro offsets parts
    unfold parseFaceToken
    rw [zip_offsets_take parts offsets.1 offsets.2.1 offsets.2.2]

/-- Witness for the part-count rule at concrete tokens. -/
theorem parse_face_part_count_rule_witness :
    parse_face (0, 0, 1) ["3/2"] = .error .invalidFaceVertex ∧
    parseFaceToken (0, 0, 0) ["1", "2", "3", "4", "5"] =
      parseFaceToken (0, 0, 0) (["1", "2", "3", "4", "5"].take 3) :=
  ⟨parse_face_part_count_rule.1 0 0 1 "3/2" [] "3" "2" (by decide) (by decide)
      (by decide),
   parse_face_part_count_rule.2.1 (0, 0, 0) ["1", "2", "3", "4", "5"]⟩

theorem gl4DrawVisit_all_diffuse {VG Tex : Type} :
    ∀ (l : List (VG × Option (Gl4Material Tex))),
      (∀ p ∈ l, Gl4Material.isDiffuseOpt p.2 = true) →
      gl4DrawVisit l =
        (l.filterMap (fun p => (Gl4Material.albedoOf p.2).map (fun a => (p.1, a))),
         false) := by
  intro l
  induction l with
  | nil => intro _; rfl
  | cons p rest ih =>
    intro hall
    obtain ⟨mg, mat⟩ := p
    have hp := hall (mg, mat) (List.mem_cons_self _ _)
    have hrest := fun q hq => hall q (List.mem_cons_of_mem _ hq)
    cases mat with
    | none => cases hp
    | some m =>
      cases m with
      | diffuse albedo color =>
        unfold gl4DrawVisit
        rw [ih hrest]
        rfl
      | specular albedo color intensity => cases hp
      | unlit albedo => cases hp

theorem drawsWithBoundTexture_pairs {VG Tex : Type} :
    ∀ (l : List (VG × Option Tex)) (tail : List (Cmd VG Tex)) (cur : Option Tex),
      drawsWithBoundTexture ((l.map drawPairCmds).flatten ++ tail) cur =
        l ++ drawsWithBoundTexture tail (l.foldl (fun _ p => p.2) cur) := by
  intro l
  induction l with
  | nil => intro tail cur; rfl
  | cons p rest ih =>
    intro tail cur
    obtain ⟨vg, tex⟩ := p
    show drawsWithBoundTexture
      (Cmd.setTexture 0 tex :: Cmd.setVertices vg :: Cmd.drawIndexed vg ::
        ((rest.map drawPairCmds).flatten ++ tail)) cur = _
    rw [show drawsWithBoundTexture
        (Cmd.setTexture 0 tex :: Cmd.setVertices vg :: Cmd.drawIndexed vg ::
          ((rest.map drawPairCmds).flatten ++ tail)) cur =
        (vg, tex) :: drawsWithBoundTexture ((rest.map drawPairCmds).flatten ++ tail) tex
      from rfl]
    rw [ih tail tex]
    rfl

/-- Claim C4, amended. In the D3D11 geometry pass every visited
vertex-group/material pair of the main model and then the room model — the
fixed registration order — receives exactly one indexed draw with that pair's
texture bound, and none is skipped. In the GL4 variant the same holds only
when every visited pair carries a present diffuse material: the pass draws
one call per pair with the pair's albedo bound; a pair without a diffuse
material instead aborts the pass early (see the counterexample). -/
theorem draw_geometry_one_draw_per_pair :
    (∀ (VG Tex : Type) (model room_model : List (VG × Option Tex)),
      drawsWithBoundTexture (d3d11_draw_geometry model room_model) none =
        model ++ room_model) ∧
    (∀ (VG Tex : Type) (room main : List (VG × Option (Gl4Material Tex))),
      (∀ p ∈ room ++ main, Gl4Material.isDiffuseOpt p.2 = true) →
      gl4_draw_geometry room main =
        (room ++ main).filterMap
          (fun p => (Gl4Material.albedoOf p.2).map (fun a => (p.1, a)))) := by
  constructor
  · intro VG Tex model room_model
    have h1 : d3d11_draw_geometry model room_model =
        [Cmd.clearDepthStencil] ++ ((List.range 4).map Cmd.clearRenderTarget) ++
          [Cmd.setRenderTarget 4 true, Cmd.setBlendState, Cmd.setViewport,
           Cmd.setShaders, Cmd.setConstantBufferVertex 0, Cmd.setConstantBufferVertex 1,
           Cmd.setConstantBufferPixel 0, Cmd.setConstantBufferPixel 1, Cmd.setSampler 0] ++
          ((model.map drawPairCmds).flatten ++
            ((room_model.map drawPairCmds).flatten ++ [Cmd.resetRenderTargets])) := by
      simp [d3d11_draw_geometry]
    have hwalk : ∀ X : List (Cmd VG Tex),
        drawsWithBoundTexture
          ([Cmd.clearDepthStencil] ++ ((List.range 4).map Cmd.clearRenderTarget) ++
            [Cmd.setRenderTarget 4 true, Cmd.setBlendState, Cmd.setViewport,
             Cmd.setShaders, Cmd.setConstantBufferVertex 0, Cmd.setConstantBufferVertex 1,
             Cmd.setConstantBufferPixel 0, Cmd.setConstantBufferPixel 1, Cmd.setSampler 0] ++
            X) none = drawsWithBoundTexture X none :=
      fun _ => rfl
    rw [h1, hwalk, drawsWithBoundTexture_pairs, drawsWithBoundTexture_pairs]
    have hreset : ∀ cur : Option Tex,
        drawsWithBoundTexture ([Cmd.resetRenderTargets] : List (Cmd VG Tex)) cur = [] :=
      fun _ => rfl
    rw [hreset]
    simp
  · intro VG Tex room main hall
    have hroom := fun p hp => hall p (List.mem_append.mpr (Or.inl hp))
    have hmain := fun p hp => hall p (List.mem_append.mpr (Or.inr hp))
    unfold gl4_draw_geometry
    rw [gl4DrawVisit_all_diffuse room hroom, gl4DrawVisit_all_diffuse main hmain]
    simp [List.filterMap_append]

/-- Witness for the one-draw-per-pair theorem at concrete models. -/
theorem draw_geometry_one_draw_per_pair_witness :
    drawsWithBoundTexture
      (@d3d11_draw_geometry Nat Nat [(1, some 5)] [(2, none)]) none =
      [(1, some 5), (2, none)] ∧
    @gl4_draw_geometry Nat Nat
      [(1, some (.diffuse 7 ⟨0, 0, 0, 0⟩))] [] = [(1, 7)] :=
  ⟨draw_geometry_one_draw_per_pair.1 Nat Nat [(1, some 5)] [(2, none)],
   by
    have h := draw_geometry_one_draw_per_pair.2 Nat Nat
      [(1, some (.diffuse 7 ⟨0, 0, 0, 0⟩))] [] (by decide)
    simpa using h⟩
